import Mathlib

/-!
Verification of the coffee-shop drinks API (`src/backend/src/api.py`).

The development embeds the request handlers, the error handlers and the
store operations of `api.py` as Lean functions over an explicit store
(a list of drink rows).  The two repository modules that `api.py` imports
but that are not part of the sources (`database/models.py`, `auth/auth.py`)
are modelled from the specification where a claim needs them; each such
definition says so in its doc comment.

JSON values are modelled by the inductive type `PyJson`; the serialised
`recipe` column is produced by `dumps` (the embedding of Python's
`json.dumps` with its default `", "` / `": "` separators) and read back by
`loads`, a verified parser.
-/

namespace CoffeeShop

/-- A JSON value as Python's `json` module produces it from a request body.
Numbers are modelled as integers (float-valued documents are outside the
model). -/
inductive PyJson where
  | null : PyJson
  | bool : Bool → PyJson
  | num : Int → PyJson
  | str : String → PyJson
  | arr : List PyJson → PyJson
  | obj : List (String × PyJson) → PyJson
deriving Repr

/-- `dict.get(key)` on a decoded JSON object: the value stored under `key`,
`none` when the value is not an object or the key is absent. -/
def PyJson.get : PyJson → String → Option PyJson
  | .obj kvs, k => (kvs.find? (fun kv => kv.1 = k)).map (fun kv => kv.2)
  | _, _ => none

/-- Python truthiness (`if new_title:`): `None`, `False`, `0`, `""`, `[]`
and `\x7b\x7d` are falsy, everything else is truthy. -/
def PyJson.truthy : PyJson → Bool
  | .null => false
  | .bool b => b
  | .num n => n != 0
  | .str s => s ≠ ""
  | .arr l => ¬ l.isEmpty
  | .obj l => ¬ l.isEmpty

/-! ### Serialisation: the embedding of `json.dumps` -/

/-- The lower-case hexadecimal digit for `n % 16`, as in Python's
`\u00XX` escapes. -/
def hexDig (n : Nat) : Char :=
  if n % 16 < 10 then Char.ofNat (48 + n % 16) else Char.ofNat (87 + n % 16)

/-- How `json.dumps` emits one character inside a string literal: `"` and
`\` are backslash-escaped and control characters become `\u00XX`.
(Python abbreviates a few controls as `\n`, `\t`, … and, by default,
`\u`-escapes non-ASCII text as well; both spellings decode to the same
character, so the model keeps the uniform `\u00XX` form for controls and
the literal form for the rest.) -/
def escChar (c : Char) : List Char :=
  if c = '"' then ['\\', '"']
  else if c = '\\' then ['\\', '\\']
  else if c.toNat < 32 then ['\\', 'u', '0', '0', hexDig (c.toNat / 16), hexDig c.toNat]
  else [c]

/-- The characters of a decimal numeral, most significant digit first. -/
def natChars (n : Nat) : List Char :=
  if h : n < 10 then [Char.ofNat (48 + n)]
  else natChars (n / 10) ++ [Char.ofNat (48 + n % 10)]
termination_by n
decreasing_by exact Nat.div_lt_self (by omega) (by omega)

/-- An integer numeral: a minus sign when negative, then the digits. -/
def intChars (i : Int) : List Char :=
  if i < 0 then '-' :: natChars i.natAbs else natChars i.natAbs

mutual
/-- `json.dumps` with its default separators, producing a character list. -/
def dumpChars : PyJson → List Char
  | .null => "null".data
  | .bool true => "true".data
  | .bool false => "false".data
  | .num i => intChars i
  | .str s => '"' :: (s.data.flatMap escChar ++ ['"'])
  | .arr l => '[' :: (dumpItems l ++ [']'])
  | .obj kvs => '\x7b' :: (dumpPairs kvs ++ ['\x7d'])
/-- Array elements joined by `", "` (the default item separator). -/
def dumpItems : List PyJson → List Char
  | [] => []
  | [v] => dumpChars v
  | v :: w :: t => dumpChars v ++ ',' :: ' ' :: dumpItems (w :: t)
/-- Object members `"key": value` joined by `", "`. -/
def dumpPairs : List (String × PyJson) → List Char
  | [] => []
  | [(k, v)] => '"' :: (k.data.flatMap escChar ++ '"' :: ':' :: ' ' :: dumpChars v)
  | (k, v) :: kv :: t =>
      '"' :: (k.data.flatMap escChar ++ '"' :: ':' :: ' ' :: dumpChars v)
        ++ ',' :: ' ' :: dumpPairs (kv :: t)
end

/-- `json.dumps`, as the string stored in the `recipe` column. -/
def dumps (v : PyJson) : String := ⟨dumpChars v⟩

/-! ### Deserialisation: a `json.loads` parser -/

/-- JSON insignificant whitespace. -/
def isJsonWs (c : Char) : Bool := c = ' ' || c = '\t' || c = '\n' || c = '\r'

/-- Skip insignificant whitespace. -/
def dropWs (l : List Char) : List Char := l.dropWhile isJsonWs

/-- The remainder after a numeral must not begin with a further digit
(inside a document it begins with `,`, `]`, a closing brace, or ends). -/
def noDigitHead : List Char → Prop
  | [] => True
  | c :: _ => c.isDigit = false

/-- The value of a hexadecimal digit character. -/
def hexVal (c : Char) : Option Nat :=
  if 48 ≤ c.toNat ∧ c.toNat ≤ 57 then some (c.toNat - 48)
  else if 97 ≤ c.toNat ∧ c.toNat ≤ 102 then some (c.toNat - 87)
  else if 65 ≤ c.toNat ∧ c.toNat ≤ 70 then some (c.toNat - 55)
  else none

/-- The single-character escapes of the JSON grammar. -/
def shortEscape (c : Char) : Option Char :=
  if c = '"' then some '"'
  else if c = '\\' then some '\\'
  else if c = '/' then some '/'
  else if c = 'n' then some '\n'
  else if c = 't' then some '\t'
  else if c = 'r' then some '\r'
  else if c = 'b' then some (Char.ofNat 8)
  else if c = 'f' then some (Char.ofNat 12)
  else none

/-- Decode a string body up to (and past) the closing quote, returning the
decoded characters and the remaining input. -/
def parseStrBody : List Char → Option (List Char × List Char)
  | '"' :: rest => some ([], rest)
  | '\\' :: 'u' :: a :: b :: c :: d :: rest => do
      let va ← hexVal a
      let vb ← hexVal b
      let vc ← hexVal c
      let vd ← hexVal d
      let (cs, r) ← parseStrBody rest
      some (Char.ofNat (((va * 16 + vb) * 16 + vc) * 16 + vd) :: cs, r)
  | '\\' :: e :: rest => do
      let ch ← shortEscape e
      let (cs, r) ← parseStrBody rest
      some (ch :: cs, r)
  | c :: rest => do
      let (cs, r) ← parseStrBody rest
      some (c :: cs, r)
  | [] => none

/-- Split off the longest leading run of decimal digits. -/
def takeDigits : List Char → List Char × List Char
  | c :: t =>
      if c.isDigit then
        let (ds, r) := takeDigits t
        (c :: ds, r)
      else ([], c :: t)
  | [] => ([], [])

/-- The number denoted by a digit run. -/
def digitsVal (ds : List Char) : Nat :=
  ds.foldl (fun acc c => acc * 10 + (c.toNat - 48)) 0

/-- Parse an integer numeral (optional minus sign, one or more digits). -/
def parseInt (l : List Char) : Option (Int × List Char) :=
  match l with
  | '-' :: t =>
      let (ds, r) := takeDigits t
      if ds.isEmpty then none else some (-(digitsVal ds : Int), r)
  | _ =>
      let (ds, r) := takeDigits l
      if ds.isEmpty then none else some ((digitsVal ds : Int), r)

mutual
/-- Parse one JSON value (fuel-indexed recursive descent). -/
def parseVal : Nat → List Char → Option (PyJson × List Char)
  | 0, _ => none
  | fuel + 1, l =>
      match dropWs l with
      | 'n' :: 'u' :: 'l' :: 'l' :: rest => some (.null, rest)
      | 't' :: 'r' :: 'u' :: 'e' :: rest => some (.bool true, rest)
      | 'f' :: 'a' :: 'l' :: 's' :: 'e' :: rest => some (.bool false, rest)
      | '"' :: rest => do
          let (cs, r) ← parseStrBody rest
          some (.str ⟨cs⟩, r)
      | '[' :: rest =>
          (match dropWs rest with
           | ']' :: r => some (.arr [], r)
           | l' => do
               let (vs, r) ← parseItems fuel l'
               some (.arr vs, r))
      | '\x7b' :: rest =>
          (match dropWs rest with
           | '\x7d' :: r => some (.obj [], r)
           | l' => do
               let (kvs, r) ← parsePairs fuel l'
               some (.obj kvs, r))
      | l' => do
          let (i, r) ← parseInt l'
          some (.num i, r)
/-- Parse one or more comma-separated array elements and the closing `]`. -/
def parseItems : Nat → List Char → Option (List PyJson × List Char)
  | 0, _ => none
  | fuel + 1, l => do
      let (v, r) ← parseVal fuel l
      match dropWs r with
      | ',' :: r2 => do
          let (vs, r3) ← parseItems fuel (dropWs r2)
          some (v :: vs, r3)
      | ']' :: r2 => some ([v], r2)
      | _ => none
/-- Parse one or more comma-separated object members and the closing brace. -/
def parsePairs : Nat → List Char → Option (List (String × PyJson) × List Char)
  | 0, _ => none
  | fuel + 1, l =>
      match dropWs l with
      | '"' :: r => do
          let (ks, r1) ← parseStrBody r
          match dropWs r1 with
          | ':' :: r2 => do
              let (v, r3) ← parseVal fuel (dropWs r2)
              (match dropWs r3 with
               | ',' :: r4 => do
                   let (kvs, r5) ← parsePairs fuel (dropWs r4)
                   some ((⟨ks⟩, v) :: kvs, r5)
               | '\x7d' :: r4 => some ([(⟨ks⟩, v)], r4)
               | _ => none)
          | _ => none
      | _ => none
end

/-- `json.loads`: parse a complete document (here: with nothing but
whitespace after the value). -/
def loads (s : String) : Option PyJson :=
  match parseVal (s.data.length + 1) s.data with
  | some (v, r) => if dropWs r = [] then some v else none
  | none => none

/-! ### The data model (`database/models.py`, modelled from the spec) -/

/-- Modelled from the spec: a row of the `Drink` table of
`database/models.py` (absent from the sources): `id` an integer primary
key assigned by the server, `title` a required unique string, `recipe` the
serialised text of the structured recipe document. -/
structure Drink where
  id : Nat
  title : String
  recipe : String
deriving Repr, DecidableEq

/-- The database state: the list of drink rows, in insertion order. -/
abbrev Store := List Drink

/-- Modelled from the spec: `Drink.long()` of `database/models.py` — the
long projection `id`, `title` and the full deserialised recipe (the spec
makes a read-time deserialisation failure a fatal configuration error, so
an unparsable column is mapped to `null` rather than to a request error). -/
def Drink.long (d : Drink) : PyJson :=
  .obj [("id", .num d.id), ("title", .str d.title),
        ("recipe", (loads d.recipe).getD .null)]

/-- Modelled from the spec: the recipe entry of the short projection keeps
only `color` and `parts`. -/
def shortEntry (e : PyJson) : PyJson :=
  .obj [("color", (e.get "color").getD .null), ("parts", (e.get "parts").getD .null)]

/-- Modelled from the spec: `Drink.short()` of `database/models.py` — `id`,
`title`, and the recipe entries restricted to `color` and `parts`. -/
def Drink.short (d : Drink) : PyJson :=
  .obj [("id", .num d.id), ("title", .str d.title),
        ("recipe", match (loads d.recipe).getD .null with
                   | .arr l => .arr (l.map shortEntry)
                   | j => j)]

/-- The order `ORDER BY id` sorts by. -/
def byId (a b : Drink) : Prop := a.id ≤ b.id

instance : DecidableRel byId := fun a b => Nat.decLe a.id b.id

instance : IsTotal Drink byId := ⟨fun a b => Nat.le_total a.id b.id⟩

instance : IsTrans Drink byId := ⟨fun _ _ _ h1 h2 => Nat.le_trans h1 h2⟩

/-- `Drink.query.order_by(Drink.id).all()`: the rows sorted by `id`
ascending. -/
def orderById (s : Store) : Store := s.insertionSort byId

/-- `Drink.query.filter(Drink.id == drink_id).one_or_none()`: the unique
matching row, `none` when there is none, and an exception (the `.error`
branch, caught by the handler's `except`) when the filter matches more
than one row. -/
def oneOrNone (s : Store) (drink_id : Nat) : Except Unit (Option Drink) :=
  match s.filter (fun d => d.id = drink_id) with
  | [] => .ok none
  | [d] => .ok (some d)
  | _ => .error ()

/-- The primary key the database assigns to a newly inserted row: one past
the largest key in use. -/
def nextId (s : Store) : Nat := (s.map (fun d => d.id)).foldr max 0 + 1

/-- Modelled from the spec: `Drink(...).insert()` of `database/models.py`.
The spec makes `title` required and unique, so a missing, null or
non-string title and a duplicate title are persistence failures (the
`.error` branch, which the handler's `except` turns into a 422); on
success the new row is appended with a server-assigned id. -/
def insertDrink (s : Store) (title : Option PyJson) (recipe : String) :
    Except Unit (Store × Drink) :=
  match title with
  | some (.str t) =>
      if s.any (fun d => d.title = t) then .error ()
      else
        let d : Drink := ⟨nextId s, t, recipe⟩
        .ok (s ++ [d], d)
  | _ => .error ()

/-- Modelled from the spec: `drink.update()` of `database/models.py`
commits the mutated row; a commit that would violate the unique-title
constraint is a persistence failure (the `.error` branch, turned into a
422 by the handler), leaving the store unchanged. -/
def commitUpdate (s : Store) (d : Drink) : Except Unit Store :=
  if s.any (fun e => e.id ≠ d.id ∧ e.title = d.title) then .error ()
  else .ok (s.map (fun e => if e.id = d.id then d else e))

/-- Modelled from the spec: `drink.delete()` of `database/models.py`
removes the row from the table. -/
def deleteById (s : Store) (drink_id : Nat) : Store :=
  s.filter (fun d => ¬ d.id = drink_id)

/-! ### Responses and the error mapper (`api.py`) -/

/-- An HTTP response: status code and JSON body. -/
structure Resp where
  status : Nat
  body : PyJson
deriving Repr

/-- The uniform error envelope
`jsonify(\x7b"success": False, "error": code, "message": msg\x7d)`. -/
def errEnvelope (code : Nat) (msg : String) : PyJson :=
  .obj [("success", .bool false), ("error", .num code), ("message", .str msg)]

/-- `abort(code)` carries Flask's default description; `abort(code, dict)`
carries a structured `code`/`description` pair (the shape the auth
module's aborts use). -/
inductive AbortDesc where
  | default : AbortDesc
  | dict (code description : String) : AbortDesc
deriving Repr, DecidableEq

/-- The registered 404 handler `not_found`. -/
def not_found : Resp := ⟨404, errEnvelope 404 "resource not found"⟩

/-- The registered 422 handler `unprocessable`. -/
def unprocessable : Resp := ⟨422, errEnvelope 422 "unprocessable"⟩

/-- The registered 405 handler (also called `not_found` in `api.py`, which
shadows the 404 handler's Python name; Flask registers both). -/
def method_not_allowed : Resp := ⟨405, errEnvelope 405 "method not allowed"⟩

/-- The registered 500 handler `internal_server_error`. -/
def internal_server_error : Resp := ⟨500, errEnvelope 500 "Internal server error"⟩

/-- The registered 400 handler `bad_request`: a structured description
gives `"<code> : <description>"`, otherwise the generic message. -/
def bad_request : AbortDesc → Resp
  | .dict c ds => ⟨400, errEnvelope 400 (c ++ " : " ++ ds)⟩
  | .default => ⟨400, errEnvelope 400 "bad request"⟩

/-- The registered 401 handler `unauthorized`. -/
def unauthorized : AbortDesc → Resp
  | .dict c ds => ⟨401, errEnvelope 401 (c ++ " : " ++ ds)⟩
  | .default => ⟨401, errEnvelope 401 "Unauthorized"⟩

/-- The registered 403 handler `forbidden`. -/
def forbidden : AbortDesc → Resp
  | .dict c ds => ⟨403, errEnvelope 403 (c ++ " : " ++ ds)⟩
  | .default => ⟨403, errEnvelope 403 "Forbidden"⟩

/-- Modelled from the spec: the `AuthError` exception of `auth/auth.py`
(absent from the sources) — a machine-readable `code`/`description` pair
(`ex.error`) together with an HTTP status code (`ex.status_code`). -/
structure AuthError where
  code : String
  description : String
  status_code : Nat
deriving Repr, DecidableEq

/-- `ex.error` as the JSON value `jsonify` receives. -/
def AuthError.errorDict (e : AuthError) : PyJson :=
  .obj [("code", .str e.code), ("description", .str e.description)]

/-- The registered `AuthError` handler `handle_auth_error`: it propagates
`ex.error` itself as the response body, with `ex.status_code` as status. -/
def handle_auth_error (e : AuthError) : Resp :=
  ⟨e.status_code, e.errorDict⟩

/-! ### The request handlers (`api.py`) -/

/-- The 200 body `\x7b"success": True, "drinks": ds\x7d`. -/
def drinksBody (ds : List PyJson) : PyJson :=
  .obj [("success", .bool true), ("drinks", .arr ds)]

/-- `GET /drinks` (`retrieve_drinks`): 404 when the table is empty,
otherwise 200 with the short projections in id order. -/
def retrieve_drinks (s : Store) : Resp :=
  let all_drinks := orderById s
  if all_drinks.length = 0 then not_found
  else ⟨200, drinksBody (all_drinks.map Drink.short)⟩

/-- `GET /drinks-detail` (`get_drinks_detail`), after the permission gate:
404 when the table is empty, otherwise 200 with the long projections in id
order. -/
def get_drinks_detail (s : Store) : Resp :=
  let all_drinks := orderById s
  if all_drinks.length = 0 then not_found
  else ⟨200, drinksBody (all_drinks.map Drink.long)⟩

/-- `POST /drinks` (`create_drink`), after the permission gate.  The body
is `request.get_json()`: `none` models a request from which no JSON object
could be read — there `body.get("title", None)` raises outside the `try`
block and the failure reaches the 500 handler instead of the 422 one.
With a body, `json.dumps(body.get("recipe", None))` is stored and the row
inserted inside the `try`; any insertion failure aborts with 422. -/
def create_drink (s : Store) (body : Option PyJson) : Store × Resp :=
  match body with
  | none => (s, internal_server_error)
  | some b =>
      let new_title := b.get "title"
      let new_recipe := dumps ((b.get "recipe").getD .null)
      match insertDrink s new_title new_recipe with
      | .error _ => (s, unprocessable)
      | .ok (s', d) => (s', ⟨200, drinksBody [d.long]⟩)

/-- A PATCH body as `modify_drink` reads it: `body.get("title", None)`
(`none` models both an absent key and an explicit `null`; a present title
is modelled at type `String`, matching the spec's `title: string`), and
`body.get("recipe", None)` likewise. -/
structure PatchBody where
  title : Option String
  recipe : Option PyJson
deriving Repr

/-- `PATCH /drinks/<drink_id>` (`modify_drink`), after the permission
gate.  Everything runs inside one `try`: a missing row sets `not_found`
and raises (→ 404); a `one_or_none` failure, an unreadable body
(`body.get` raising) or a failing commit land in the bare `except`
(→ 422).  A field is applied only when its value is truthy
(`if new_title:` / `if new_recipe:`); an applied recipe is stored as
`json.dumps(new_recipe)`. -/
def modify_drink (s : Store) (body : Option PatchBody) (drink_id : Nat) :
    Store × Resp :=
  match oneOrNone s drink_id with
  | .error _ => (s, unprocessable)
  | .ok none => (s, not_found)
  | .ok (some drink_obj) =>
      match body with
      | none => (s, unprocessable)
      | some b =>
          let d1 := match b.title with
            | some t => if t ≠ "" then { drink_obj with title := t } else drink_obj
            | none => drink_obj
          let d2 := match b.recipe with
            | some r => if r.truthy then { d1 with recipe := dumps r } else d1
            | none => d1
          match commitUpdate s d2 with
          | .error _ => (s, unprocessable)
          | .ok s' => (s', ⟨200, drinksBody [d2.long]⟩)

/-- `DELETE /drinks/<drink_id>` (`delete_drink`), after the permission
gate: 404 when no row matches, otherwise the row is removed and the
response is `\x7b"success": True, "delete": drink_id\x7d`. -/
def delete_drink (s : Store) (drink_id : Nat) : Store × Resp :=
  match oneOrNone s drink_id with
  | .error _ => (s, unprocessable)
  | .ok none => (s, not_found)
  | .ok (some _) =>
      (deleteById s drink_id,
       ⟨200, .obj [("success", .bool true), ("delete", .num drink_id)]⟩)

/-- Modelled from the spec: the seed row that `db_drop_and_create_all()`
of `database/models.py` inserts after recreating the schema (the comment
above the call in `api.py`: the call "WILL DROP ALL RECORDS AND START YOUR
DB FROM SCRATCH" and "will add one"). -/
def seedStore : Store :=
  [⟨1, "water", "[\x7b\"name\": \"water\", \"color\": \"blue\", \"parts\": 1\x7d]"⟩]

/-- Modelled from the spec: `db_drop_and_create_all()` — executed at
module import, before any route is served (`api.py` line 20).  Whatever
the database held from previous runs, the tables are dropped and recreated
and only the seed row remains. -/
def db_drop_and_create_all (_previous : Store) : Store := seedStore

/-! ### Observations used to state the claims -/

/-- The title a PATCH leaves in the row: the request's title exactly when
it is present and truthy (non-empty), the old title otherwise. -/
def titleAfter (old : String) : Option String → String
  | some t => if t = "" then old else t
  | none => old

/-- The recipe column a PATCH leaves in the row: the dump of the request's
recipe exactly when it is present and truthy, the old text otherwise. -/
def recipeAfter (old : String) : Option PyJson → String
  | some r => if r.truthy then dumps r else old
  | none => old

/-- The row a PATCH body turns `d` into: id kept, each field applied
exactly when present and truthy. -/
def patched (d : Drink) (t : Option String) (r : Option PyJson) : Drink :=
  ⟨d.id, titleAfter d.title t, recipeAfter d.recipe r⟩

/-- The `(id, recipe)` projection of a row, for frame statements. -/
def idRecipe (d : Drink) : Nat × String := (d.id, d.recipe)

/-- The `(id, title)` projection of a row, for frame statements. -/
def idTitle (d : Drink) : Nat × String := (d.id, d.title)

/-- The response's `drinks` array mentions an entry whose `id` field is
`i`. -/
def listsId (r : Resp) (i : Nat) : Prop :=
  match r.body.get "drinks" with
  | some (.arr l) => ∃ e ∈ l, e.get "id" = some (.num i)
  | _ => False

/-! ## JSON codec lemmas: digits and numerals -/

theorem digitChar_isDigit (m : Nat) (h : m < 10) :
    (Char.ofNat (48 + m)).isDigit = true := by
  interval_cases m <;> decide

theorem digitChar_toNat (m : Nat) (h : m < 10) :
    (Char.ofNat (48 + m)).toNat = 48 + m := by
  interval_cases m <;> decide

theorem natChars_ne_nil (n : Nat) : natChars n ≠ [] := by
  rw [natChars]
  split
  · simp
  · simp

theorem natChars_all_digit (n : Nat) : ∀ c ∈ natChars n, c.isDigit = true := by
  induction n using Nat.strongRecOn with
  | _ n ih =>
    rw [natChars]
    split
    · intro c hc
      rw [List.mem_singleton] at hc
      subst hc
      exact digitChar_isDigit n (by omega)
    · intro c hc
      rcases List.mem_append.mp hc with h1 | h1
      · exact ih (n / 10) (Nat.div_lt_self (by omega) (by omega)) c h1
      · rw [List.mem_singleton] at h1
        subst h1
        exact digitChar_isDigit (n % 10) (Nat.mod_lt _ (by omega))

theorem digitsVal_natChars (n : Nat) : digitsVal (natChars n) = n := by
  induction n using Nat.strongRecOn with
  | _ n ih =>
    rw [natChars]
    split
    · rename_i h
      simp only [digitsVal, List.foldl_cons, List.foldl_nil, Nat.zero_mul, Nat.zero_add]
      rw [digitChar_toNat n h]
      omega
    · rename_i h
      have hrec := ih (n / 10) (Nat.div_lt_self (by omega) (by omega))
      simp only [digitsVal, List.foldl_append, List.foldl_cons, List.foldl_nil]
      simp only [digitsVal] at hrec
      rw [hrec, digitChar_toNat (n % 10) (Nat.mod_lt _ (by omega))]
      omega

theorem isDigit_facts (c : Char) (h : c.isDigit = true) :
    isJsonWs c = false ∧ c ≠ 'n' ∧ c ≠ 't' ∧ c ≠ 'f' ∧ c ≠ '"' ∧ c ≠ '[' ∧
    c ≠ '\x7b' ∧ c ≠ ']' ∧ c ≠ '\x7d' ∧ c ≠ ',' ∧ c ≠ ':' ∧ c ≠ '-' ∧ c ≠ '\\' := by
  refine ⟨?_, ?_, ?_, ?_, ?_, ?_, ?_, ?_, ?_, ?_, ?_, ?_, ?_⟩
  · simp only [isJsonWs, Bool.or_eq_false_iff, decide_eq_false_iff_not]
    refine ⟨⟨⟨?_, ?_⟩, ?_⟩, ?_⟩ <;> (intro hc; subst hc; exact absurd h (by decide))
  all_goals (intro hc; subst hc; exact absurd h (by decide))

theorem takeDigits_stop {l : List Char} (h : noDigitHead l) :
    takeDigits l = ([], l) := by
  match l with
  | [] => rfl
  | c :: t =>
      have hc : c.isDigit = false := h
      simp [takeDigits, hc]

theorem takeDigits_run (ds : List Char) (rest : List Char)
    (hds : ∀ c ∈ ds, c.isDigit = true) (hrest : noDigitHead rest) :
    takeDigits (ds ++ rest) = (ds, rest) := by
  induction ds with
  | nil => simpa using takeDigits_stop hrest
  | cons c t ih =>
      have hc : c.isDigit = true := hds c (List.mem_cons_self c t)
      have ht := ih (fun x hx => hds x (List.mem_cons_of_mem c hx))
      simp [takeDigits, hc, ht]

theorem parseInt_minus (t : List Char) :
    parseInt ('-' :: t)
      = (match takeDigits t with
         | (ds, r) => if ds.isEmpty then none else some (-(digitsVal ds : Int), r)) := rfl

theorem parseInt_head_digit (c : Char) (t : List Char) (hc : c.isDigit = true) :
    parseInt (c :: t)
      = (match takeDigits (c :: t) with
         | (ds, r) => if ds.isEmpty then none else some ((digitsVal ds : Int), r)) := by
  rw [parseInt.eq_def]
  split
  · rename_i t' heq
    have hc' : c = '-' := by injection heq
    exact absurd hc' ((isDigit_facts c hc).2.2.2.2.2.2.2.2.2.2.2.1)
  · rfl

theorem parseInt_intChars (i : Int) (rest : List Char) (h : noDigitHead rest) :
    parseInt (intChars i ++ rest) = some (i, rest) := by
  by_cases hneg : i < 0
  · have harg : intChars i ++ rest = '-' :: (natChars i.natAbs ++ rest) := by
      simp [intChars, hneg]
    rw [harg, parseInt_minus]
    rw [takeDigits_run _ _ (natChars_all_digit _) h]
    show (if (natChars i.natAbs).isEmpty then none
          else some (-(digitsVal (natChars i.natAbs) : Int), rest)) = some (i, rest)
    rw [if_neg (by simpa using natChars_ne_nil i.natAbs)]
    rw [digitsVal_natChars]
    have hi : -(i.natAbs : Int) = i := by omega
    rw [hi]
  · obtain ⟨c, t, hct⟩ : ∃ c t, natChars i.natAbs = c :: t := by
      rcases hn : natChars i.natAbs with _ | ⟨c, t⟩
      · exact absurd hn (natChars_ne_nil _)
      · exact ⟨c, t, rfl⟩
    have hcd : c.isDigit = true :=
      natChars_all_digit i.natAbs c (by rw [hct]; exact List.mem_cons_self c t)
    have harg : intChars i ++ rest = c :: (t ++ rest) := by
      simp [intChars, hneg, hct]
    rw [harg, parseInt_head_digit c (t ++ rest) hcd]
    have htd : takeDigits (c :: (t ++ rest)) = (c :: t, rest) := by
      have hall : ∀ x ∈ c :: t, x.isDigit = true := by
        intro x hx
        exact natChars_all_digit i.natAbs x (hct ▸ hx)
      exact takeDigits_run (c :: t) rest hall h
    rw [htd]
    show (if (c :: t).isEmpty then none else some ((digitsVal (c :: t) : Int), rest))
        = some (i, rest)
    rw [if_neg (by simp)]
    have h1 : digitsVal (c :: t) = i.natAbs := by rw [← hct]; exact digitsVal_natChars _
    rw [h1]
    have h2 : (i.natAbs : Int) = i := by omega
    rw [h2]

/-! ## JSON codec lemmas: strings -/

theorem hexVal_hexDig (n : Nat) : hexVal (hexDig n) = some (n % 16) := by
  have hm : n % 16 < 16 := Nat.mod_lt _ (by omega)
  unfold hexDig
  generalize h : n % 16 = m at *
  interval_cases m <;> decide

theorem parseStrBody_quote (X : List Char) :
    parseStrBody ('"' :: X) = some ([], X) := rfl

theorem parseStrBody_backslash (X : List Char) :
    parseStrBody ('\\' :: '\\' :: X)
      = (parseStrBody X).bind (fun p => some ('\\' :: p.1, p.2)) := rfl

theorem parseStrBody_escQuote (X : List Char) :
    parseStrBody ('\\' :: '"' :: X)
      = (parseStrBody X).bind (fun p => some ('"' :: p.1, p.2)) := rfl

theorem parseStrBody_unicode (a b c2 d : Char) (X : List Char) :
    parseStrBody ('\\' :: 'u' :: a :: b :: c2 :: d :: X)
      = (hexVal a).bind (fun va => (hexVal b).bind (fun vb =>
          (hexVal c2).bind (fun vc => (hexVal d).bind (fun vd =>
            (parseStrBody X).bind (fun p =>
              some (Char.ofNat (((va * 16 + vb) * 16 + vc) * 16 + vd) :: p.1, p.2)))))) :=
  rfl

theorem parseStrBody_plain (c : Char) (X : List Char)
    (h1 : c ≠ '"') (h2 : c ≠ '\\') :
    parseStrBody (c :: X)
      = (parseStrBody X).bind (fun p => some (c :: p.1, p.2)) := by
  rw [parseStrBody.eq_def]
  split
  · rename_i heq
    have : c = '"' := by injection heq
    exact absurd this h1
  · rename_i a b c3 d r heq
    have : c = '\\' := by injection heq
    exact absurd this h2
  · rename_i e r heq
    have : c = '\\' := by injection heq
    exact absurd this h2
  · rename_i c' r heq
    injection heq with hc hX
    subst hc
    subst hX
    rfl
  · rename_i heq
    exact absurd heq (List.cons_ne_nil c X)

theorem parseStrBody_escChar (c : Char) (X : List Char) :
    parseStrBody (escChar c ++ X)
      = (parseStrBody X).bind (fun p => some (c :: p.1, p.2)) := by
  unfold escChar
  split_ifs with h1 h2 h3
  · subst h1
    exact parseStrBody_escQuote X
  · subst h2
    exact parseStrBody_backslash X
  · show parseStrBody ('\\' :: 'u' :: '0' :: '0' :: hexDig (c.toNat / 16) :: hexDig c.toNat :: X)
        = _
    rw [parseStrBody_unicode]
    rw [show hexVal '0' = some 0 from rfl]
    rw [hexVal_hexDig, hexVal_hexDig]
    have e1 : c.toNat / 16 % 16 = c.toNat / 16 := Nat.mod_eq_of_lt (by omega)
    have e2 : ((0 * 16 + 0) * 16 + c.toNat / 16 % 16) * 16 + c.toNat % 16 = c.toNat := by
      rw [e1]
      omega
    simp only [Option.some_bind, e2, Char.ofNat_toNat]
  · exact parseStrBody_plain c X h1 h2

theorem parseStrBody_flat (cs : List Char) (X : List Char) :
    parseStrBody (cs.flatMap escChar ++ '"' :: X) = some (cs, X) := by
  induction cs with
  | nil => exact parseStrBody_quote X
  | cons c t ih =>
      rw [List.flatMap_cons, List.append_assoc, parseStrBody_escChar, ih]
      rfl

/-! ## JSON codec lemmas: heads, whitespace, parser steps -/

theorem dropWs_cons_not_ws {c : Char} (h : isJsonWs c = false) (t : List Char) :
    dropWs (c :: t) = c :: t := by
  simp [dropWs, List.dropWhile_cons, h]

theorem dropWs_space (t : List Char) : dropWs (' ' :: t) = dropWs t := by
  simp [dropWs, List.dropWhile_cons, isJsonWs]

theorem dumpChars_cons (v : PyJson) :
    ∃ c t, dumpChars v = c :: t ∧ isJsonWs c = false ∧ c ≠ ']' ∧ c ≠ '\x7d' ∧ c ≠ ',' := by
  cases v with
  | null => exact ⟨'n', _, rfl, by decide, by decide, by decide, by decide⟩
  | bool b =>
      cases b with
      | false => exact ⟨'f', _, rfl, by decide, by decide, by decide, by decide⟩
      | true => exact ⟨'t', _, rfl, by decide, by decide, by decide, by decide⟩
  | num i =>
      by_cases hneg : i < 0
      · refine ⟨'-', natChars i.natAbs, ?_, by decide, by decide, by decide, by decide⟩
        simp [dumpChars, intChars, hneg]
      · obtain ⟨c, t, hct⟩ : ∃ c t, natChars i.natAbs = c :: t := by
          rcases hn : natChars i.natAbs with _ | ⟨c, t⟩
          · exact absurd hn (natChars_ne_nil _)
          · exact ⟨c, t, rfl⟩
        have hcd : c.isDigit = true :=
          natChars_all_digit i.natAbs c (by rw [hct]; exact List.mem_cons_self c t)
        obtain ⟨hws, _, _, _, _, _, _, hrb, hbr, hcm, _, _, _⟩ := isDigit_facts c hcd
        refine ⟨c, t, ?_, hws, hrb, hbr, hcm⟩
        simp [dumpChars, intChars, hneg, hct]
  | str s => exact ⟨'"', _, rfl, by decide, by decide, by decide, by decide⟩
  | arr l => exact ⟨'[', _, rfl, by decide, by decide, by decide, by decide⟩
  | obj kvs => exact ⟨'\x7b', _, rfl, by decide, by decide, by decide, by decide⟩

theorem dropWs_dump (v : PyJson) (X : List Char) :
    dropWs (dumpChars v ++ X) = dumpChars v ++ X := by
  obtain ⟨c, t, hct, hws, _, _, _⟩ := dumpChars_cons v
  rw [hct, List.cons_append, dropWs_cons_not_ws hws]

theorem dumpChars_length_pos (v : PyJson) : 0 < (dumpChars v).length := by
  obtain ⟨c, t, hct, _, _, _, _⟩ := dumpChars_cons v
  rw [hct]
  simp

theorem dumpItems_cons_head (v : PyJson) (vs : List PyJson) :
    ∃ c t, dumpItems (v :: vs) = c :: t ∧ isJsonWs c = false ∧ c ≠ ']' ∧
      c ≠ '\x7d' ∧ c ≠ ',' := by
  obtain ⟨c, t, hct, hws, hrb, hbr, hcm⟩ := dumpChars_cons v
  cases vs with
  | nil => exact ⟨c, t, hct, hws, hrb, hbr, hcm⟩
  | cons w ws =>
      refine ⟨c, t ++ ',' :: ' ' :: dumpItems (w :: ws), ?_, hws, hrb, hbr, hcm⟩
      rw [dumpItems, hct]
      simp

theorem dropWs_dumpItems (v : PyJson) (vs : List PyJson) (X : List Char) :
    dropWs (dumpItems (v :: vs) ++ X) = dumpItems (v :: vs) ++ X := by
  obtain ⟨c, t, hct, hws, _, _, _⟩ := dumpItems_cons_head v vs
  rw [hct, List.cons_append, dropWs_cons_not_ws hws]

theorem dumpPairs_cons_head (kv : String × PyJson) (t : List (String × PyJson)) :
    ∃ Y, dumpPairs (kv :: t) = '"' :: Y := by
  rcases kv with ⟨k, v⟩
  cases t with
  | nil => exact ⟨_, rfl⟩
  | cons kv2 t2 =>
      refine ⟨k.data.flatMap escChar ++ '"' :: ':' :: ' ' :: dumpChars v
        ++ ',' :: ' ' :: dumpPairs (kv2 :: t2), ?_⟩
      rw [dumpPairs]
      simp

theorem dropWs_dumpPairs (kv : String × PyJson) (t : List (String × PyJson))
    (X : List Char) :
    dropWs (dumpPairs (kv :: t) ++ X) = dumpPairs (kv :: t) ++ X := by
  obtain ⟨Y, hY⟩ := dumpPairs_cons_head kv t
  rw [hY, List.cons_append, dropWs_cons_not_ws (by decide)]

theorem parseVal_null_step (f : Nat) (X : List Char) :
    parseVal (f + 1) ('n' :: 'u' :: 'l' :: 'l' :: X) = some (.null, X) := rfl

theorem parseVal_true_step (f : Nat) (X : List Char) :
    parseVal (f + 1) ('t' :: 'r' :: 'u' :: 'e' :: X) = some (.bool true, X) := rfl

theorem parseVal_false_step (f : Nat) (X : List Char) :
    parseVal (f + 1) ('f' :: 'a' :: 'l' :: 's' :: 'e' :: X) = some (.bool false, X) := rfl

theorem parseVal_str_step (f : Nat) (X : List Char) :
    parseVal (f + 1) ('"' :: X)
      = (parseStrBody X).bind (fun p => some (.str ⟨p.1⟩, p.2)) := rfl

theorem parseVal_arr_step (f : Nat) (X : List Char) :
    parseVal (f + 1) ('[' :: X)
      = (match dropWs X with
         | ']' :: r => some (.arr [], r)
         | l' => (parseItems f l').bind (fun p => some (.arr p.1, p.2))) := rfl

theorem parseVal_obj_step (f : Nat) (X : List Char) :
    parseVal (f + 1) ('\x7b' :: X)
      = (match dropWs X with
         | '\x7d' :: r => some (.obj [], r)
         | l' => (parsePairs f l').bind (fun p => some (.obj p.1, p.2))) := rfl

theorem parseVal_minus_step (f : Nat) (X : List Char) :
    parseVal (f + 1) ('-' :: X)
      = (parseInt ('-' :: X)).bind (fun p => some (.num p.1, p.2)) := rfl

theorem parseVal_succ (f : Nat) (l : List Char) :
    parseVal (f + 1) l
      = (match dropWs l with
         | 'n' :: 'u' :: 'l' :: 'l' :: rest => some (.null, rest)
         | 't' :: 'r' :: 'u' :: 'e' :: rest => some (.bool true, rest)
         | 'f' :: 'a' :: 'l' :: 's' :: 'e' :: rest => some (.bool false, rest)
         | '"' :: rest => (parseStrBody rest).bind (fun p => some (.str ⟨p.1⟩, p.2))
         | '[' :: rest =>
             (match dropWs rest with
              | ']' :: r => some (.arr [], r)
              | l' => (parseItems f l').bind (fun p => some (.arr p.1, p.2)))
         | '\x7b' :: rest =>
             (match dropWs rest with
              | '\x7d' :: r => some (.obj [], r)
              | l' => (parsePairs f l').bind (fun p => some (.obj p.1, p.2)))
         | l' => (parseInt l').bind (fun p => some (.num p.1, p.2))) := rfl

theorem parseVal_digit_step (f : Nat) (c : Char) (X : List Char) (hc : c.isDigit = true) :
    parseVal (f + 1) (c :: X)
      = (parseInt (c :: X)).bind (fun p => some (.num p.1, p.2)) := by
  obtain ⟨hws, hn, ht, hf, hq, hlb, hlc, _, _, _, _, _, _⟩ := isDigit_facts c hc
  rw [parseVal_succ, dropWs_cons_not_ws hws]
  split <;>
    first
      | rfl
      | (rename_i heq
         injection heq with h1 h2
         subst h1
         simp_all)

theorem parseItems_step (f : Nat) (X : List Char) :
    parseItems (f + 1) X
      = (parseVal f X).bind (fun p =>
          match dropWs p.2 with
          | ',' :: r2 => (parseItems f (dropWs r2)).bind (fun q => some (p.1 :: q.1, q.2))
          | ']' :: r2 => some ([p.1], r2)
          | _ => none) := rfl

theorem parsePairs_step (f : Nat) (X : List Char) :
    parsePairs (f + 1) X
      = (match dropWs X with
         | '"' :: r => (parseStrBody r).bind (fun pk =>
             match dropWs pk.2 with
             | ':' :: r2 => (parseVal f (dropWs r2)).bind (fun pv =>
                 match dropWs pv.2 with
                 | ',' :: r4 =>
                     (parsePairs f (dropWs r4)).bind
                       (fun q => some ((⟨pk.1⟩, pv.1) :: q.1, q.2))
                 | '\x7d' :: r4 => some ([(⟨pk.1⟩, pv.1)], r4)
                 | _ => none)
             | _ => none)
         | _ => none) := rfl

theorem noDigitHead_cons {c : Char} (h : c.isDigit = false) (X : List Char) :
    noDigitHead (c :: X) := h

/-- The codec round-trip, by induction on fuel: a dumped value parses back
to itself (with the remainder untouched), at every fuel bound exceeding
the dumped length. -/
theorem parse_dump_round (fuel : Nat) :
    (∀ v rest, (dumpChars v).length < fuel → noDigitHead rest →
        parseVal fuel (dumpChars v ++ rest) = some (v, rest)) ∧
    (∀ l rest, l ≠ [] → (dumpItems l).length + 1 < fuel →
        parseItems fuel (dumpItems l ++ ']' :: rest) = some (l, rest)) ∧
    (∀ kvs rest, kvs ≠ [] → (dumpPairs kvs).length + 1 < fuel →
        parsePairs fuel (dumpPairs kvs ++ '\x7d' :: rest) = some (kvs, rest)) := by
  induction fuel with
  | zero =>
      refine ⟨fun v rest hl _ => absurd hl (by omega),
              fun l rest _ hl => absurd hl (by omega),
              fun kvs rest _ hl => absurd hl (by omega)⟩
  | succ f ih =>
      obtain ⟨ihV, ihI, ihP⟩ := ih
      refine ⟨?_, ?_, ?_⟩
      · intro v rest hlen hrest
        cases v with
        | null => exact parseVal_null_step f rest
        | bool b =>
            cases b with
            | true => exact parseVal_true_step f rest
            | false => exact parseVal_false_step f rest
        | num i =>
            by_cases hneg : i < 0
            · have harg : dumpChars (.num i) ++ rest
                  = '-' :: (natChars i.natAbs ++ rest) := by
                simp [dumpChars, intChars, hneg]
              have hpi : parseInt ('-' :: (natChars i.natAbs ++ rest)) = some (i, rest) := by
                have h2 := parseInt_intChars i rest hrest
                rwa [show intChars i ++ rest = '-' :: (natChars i.natAbs ++ rest) from by
                  simp [intChars, hneg]] at h2
              rw [harg, parseVal_minus_step, hpi]
              rfl
            · obtain ⟨c, t, hct⟩ : ∃ c t, natChars i.natAbs = c :: t := by
                rcases hn : natChars i.natAbs with _ | ⟨c, t⟩
                · exact absurd hn (natChars_ne_nil _)
                · exact ⟨c, t, rfl⟩
              have hcd : c.isDigit = true :=
                natChars_all_digit i.natAbs c (by rw [hct]; exact List.mem_cons_self c t)
              have harg : dumpChars (.num i) ++ rest = c :: (t ++ rest) := by
                simp [dumpChars, intChars, hneg, hct]
              have hpi : parseInt (c :: (t ++ rest)) = some (i, rest) := by
                have h2 := parseInt_intChars i rest hrest
                rwa [show intChars i ++ rest = c :: (t ++ rest) from by
                  simp [intChars, hneg, hct]] at h2
              rw [harg, parseVal_digit_step f c _ hcd, hpi]
              rfl
        | str s =>
            have harg : dumpChars (.str s) ++ rest
                = '"' :: (s.data.flatMap escChar ++ '"' :: rest) := by
              simp [dumpChars]
            rw [harg, parseVal_str_step, parseStrBody_flat]
            rfl
        | arr l =>
            cases l with
            | nil => exact rfl
            | cons w ws =>
                have harg : dumpChars (.arr (w :: ws)) ++ rest
                    = '[' :: (dumpItems (w :: ws) ++ ']' :: rest) := by
                  simp [dumpChars]
                rw [harg, parseVal_arr_step, dropWs_dumpItems]
                obtain ⟨c, t, hct, hws, hrb, hbr, hcm⟩ := dumpItems_cons_head w ws
                have hlen2 : (dumpItems (w :: ws)).length + 1 < f := by
                  have hx : (dumpChars (.arr (w :: ws))).length
                      = (dumpItems (w :: ws)).length + 2 := by
                    simp [dumpChars]
                  omega
                have hkey := ihI (w :: ws) rest (by simp) hlen2
                rw [hct, List.cons_append]
                split
                · rename_i r heq
                  injection heq with h1 h2
                  exact absurd h1 hrb
                · rw [show c :: (t ++ ']' :: rest) = dumpItems (w :: ws) ++ ']' :: rest from by
                    rw [hct, List.cons_append], hkey]
                  rfl
        | obj kvs =>
            cases kvs with
            | nil => exact rfl
            | cons kv t =>
                have harg : dumpChars (.obj (kv :: t)) ++ rest
                    = '\x7b' :: (dumpPairs (kv :: t) ++ '\x7d' :: rest) := by
                  simp [dumpChars]
                rw [harg, parseVal_obj_step, dropWs_dumpPairs]
                obtain ⟨Y, hY⟩ := dumpPairs_cons_head kv t
                have hlen2 : (dumpPairs (kv :: t)).length + 1 < f := by
                  have hx : (dumpChars (.obj (kv :: t))).length
                      = (dumpPairs (kv :: t)).length + 2 := by
                    simp [dumpChars]
                  omega
                have hkey := ihP (kv :: t) rest (by simp) hlen2
                rw [hY, List.cons_append]
                split
                · rename_i r heq
                  injection heq with h1 h2
                  exact absurd h1 (by decide)
                · rw [show '"' :: (Y ++ '\x7d' :: rest) = dumpPairs (kv :: t) ++ '\x7d' :: rest from by
                    rw [hY, List.cons_append], hkey]
                  rfl
      · intro l rest hne hlen
        match l with
        | [] => exact absurd rfl hne
        | [v] =>
            have hlenv : (dumpChars v).length < f := by
              have hx : (dumpItems [v]).length = (dumpChars v).length := rfl
              omega
            have hv := ihV v (']' :: rest) hlenv (noDigitHead_cons (by decide) rest)
            rw [show dumpItems [v] ++ ']' :: rest = dumpChars v ++ ']' :: rest from rfl,
               parseItems_step, hv]
            rfl
        | v :: w :: t =>
            have hsplit : (dumpItems (v :: w :: t)).length
                = (dumpChars v).length + 2 + (dumpItems (w :: t)).length := by
              simp [dumpItems]
              omega
            have hpos := dumpChars_length_pos v
            have harg : dumpItems (v :: w :: t) ++ ']' :: rest
                = dumpChars v ++ (',' :: ' ' :: (dumpItems (w :: t) ++ ']' :: rest)) := by
              simp [dumpItems]
            have hv := ihV v (',' :: ' ' :: (dumpItems (w :: t) ++ ']' :: rest))
              (by omega) (noDigitHead_cons (by decide) _)
            rw [harg, parseItems_step, hv]
            show (parseItems f (dropWs (' ' :: (dumpItems (w :: t) ++ ']' :: rest)))).bind
                (fun q => some (v :: q.1, q.2)) = some (v :: w :: t, rest)
            rw [dropWs_space, dropWs_dumpItems]
            rw [ihI (w :: t) rest (by simp) (by omega)]
            rfl
      · intro kvs rest hne hlen
        match kvs with
        | [] => exact absurd rfl hne
        | [(k, v)] =>
            have harg : dumpPairs [(k, v)] ++ '\x7d' :: rest
                = '"' :: (k.data.flatMap escChar
                    ++ '"' :: (':' :: ' ' :: (dumpChars v ++ '\x7d' :: rest))) := by
              simp [dumpPairs]
            have hlenv : (dumpChars v).length < f := by
              have hx : (dumpPairs [(k, v)]).length
                  = (k.data.flatMap escChar).length + 4 + (dumpChars v).length := by
                simp [dumpPairs]
                omega
              omega
            have hv := ihV v ('\x7d' :: rest) hlenv (noDigitHead_cons (by decide) rest)
            rw [harg, parsePairs_step, dropWs_cons_not_ws (by decide)]
            show (parseStrBody (k.data.flatMap escChar
                ++ '"' :: (':' :: ' ' :: (dumpChars v ++ '\x7d' :: rest)))).bind
              (fun pk => match dropWs pk.2 with
               | ':' :: r2 => (parseVal f (dropWs r2)).bind (fun pv =>
                   match dropWs pv.2 with
                   | ',' :: r4 =>
                       (parsePairs f (dropWs r4)).bind
                         (fun q => some ((⟨pk.1⟩, pv.1) :: q.1, q.2))
                   | '\x7d' :: r4 => some ([(⟨pk.1⟩, pv.1)], r4)
                   | _ => none)
               | _ => none) = some ([(k, v)], rest)
            rw [parseStrBody_flat]
            simp only [Option.some_bind]
            rw [dropWs_cons_not_ws (by decide)]
            show (parseVal f (dropWs (' ' :: (dumpChars v ++ '\x7d' :: rest)))).bind
              (fun pv => match dropWs pv.2 with
               | ',' :: r4 =>
                   (parsePairs f (dropWs r4)).bind
                     (fun q => some ((⟨k.data⟩, pv.1) :: q.1, q.2))
               | '\x7d' :: r4 => some ([(⟨k.data⟩, pv.1)], r4)
               | _ => none) = some ([(k, v)], rest)
            rw [dropWs_space, dropWs_dump, hv]
            rfl
        | (k, v) :: kv2 :: t2 =>
            have harg : dumpPairs ((k, v) :: kv2 :: t2) ++ '\x7d' :: rest
                = '"' :: (k.data.flatMap escChar
                    ++ '"' :: (':' :: ' ' :: (dumpChars v
                        ++ ',' :: ' ' :: (dumpPairs (kv2 :: t2) ++ '\x7d' :: rest)))) := by
              simp [dumpPairs]
            have hsplit : (dumpPairs ((k, v) :: kv2 :: t2)).length
                = (k.data.flatMap escChar).length + 4 + (dumpChars v).length
                    + 2 + (dumpPairs (kv2 :: t2)).length := by
              simp [dumpPairs]
              omega
            have hpos := dumpChars_length_pos v
            have hv := ihV v
              (',' :: ' ' :: (dumpPairs (kv2 :: t2) ++ '\x7d' :: rest))
              (by omega) (noDigitHead_cons (by decide) _)
            rw [harg, parsePairs_step, dropWs_cons_not_ws (by decide)]
            show (parseStrBody (k.data.flatMap escChar
                ++ '"' :: (':' :: ' ' :: (dumpChars v
                    ++ ',' :: ' ' :: (dumpPairs (kv2 :: t2) ++ '\x7d' :: rest))))).bind
              (fun pk => match dropWs pk.2 with
               | ':' :: r2 => (parseVal f (dropWs r2)).bind (fun pv =>
                   match dropWs pv.2 with
                   | ',' :: r4 =>
                       (parsePairs f (dropWs r4)).bind
                         (fun q => some ((⟨pk.1⟩, pv.1) :: q.1, q.2))
                   | '\x7d' :: r4 => some ([(⟨pk.1⟩, pv.1)], r4)
                   | _ => none)
               | _ => none) = some ((k, v) :: kv2 :: t2, rest)
            rw [parseStrBody_flat]
            simp only [Option.some_bind]
            rw [dropWs_cons_not_ws (by decide)]
            show (parseVal f (dropWs (' ' :: (dumpChars v
                ++ ',' :: ' ' :: (dumpPairs (kv2 :: t2) ++ '\x7d' :: rest))))).bind
              (fun pv => match dropWs pv.2 with
               | ',' :: r4 =>
                   (parsePairs f (dropWs r4)).bind
                     (fun q => some ((⟨k.data⟩, pv.1) :: q.1, q.2))
               | '\x7d' :: r4 => some ([(⟨k.data⟩, pv.1)], r4)
               | _ => none) = some ((k, v) :: kv2 :: t2, rest)
            rw [dropWs_space, dropWs_dump, hv]
            show (parsePairs f (dropWs (' ' :: (dumpPairs (kv2 :: t2) ++ '\x7d' :: rest)))).bind
              (fun q => some ((⟨k.data⟩, v) :: q.1, q.2)) = some ((k, v) :: kv2 :: t2, rest)
            rw [dropWs_space, dropWs_dumpPairs]
            rw [ihP (kv2 :: t2) rest (by simp) (by omega)]
            rfl

/-- The round-trip at the top level: `json.loads (json.dumps v) = v`. -/
theorem loads_dumps (v : PyJson) : loads (dumps v) = some v := by
  have h := (parse_dump_round ((dumpChars v).length + 1)).1 v [] (by omega) trivial
  rw [List.append_nil] at h
  unfold loads dumps
  rw [show (String.mk (dumpChars v)).data = dumpChars v from rfl, h]
  rfl

/-! ## Store lemmas -/

theorem mem_of_filter_single {s : Store} {i : Nat} {d : Drink}
    (h : s.filter (fun e => e.id = i) = [d]) : d ∈ s ∧ d.id = i := by
  have hd : d ∈ s.filter (fun e => e.id = i) := by
    rw [h]; exact List.mem_singleton_self d
  have h2 := List.mem_filter.mp hd
  exact ⟨h2.1, by simpa using h2.2⟩

theorem eq_of_filter_single {s : Store} {i : Nat} {d e : Drink}
    (h : s.filter (fun x => x.id = i) = [d]) (he : e ∈ s) (hei : e.id = i) :
    e = d := by
  have hm : e ∈ s.filter (fun x => x.id = i) :=
    List.mem_filter.mpr ⟨he, by simpa using hei⟩
  rw [h] at hm
  simpa using hm

theorem filter_nil_of_absent {s : Store} {i : Nat} (h : ∀ d ∈ s, d.id ≠ i) :
    s.filter (fun e => e.id = i) = [] := by
  rw [List.filter_eq_nil_iff]
  intro d hd
  simpa using h d hd

theorem oneOrNone_absent {s : Store} {i : Nat} (h : ∀ d ∈ s, d.id ≠ i) :
    oneOrNone s i = .ok none := by
  unfold oneOrNone
  rw [filter_nil_of_absent h]

theorem oneOrNone_single {s : Store} {i : Nat} {d : Drink}
    (h : s.filter (fun e => e.id = i) = [d]) : oneOrNone s i = .ok (some d) := by
  unfold oneOrNone
  rw [h]

theorem oneOrNone_ok_some {s : Store} {i : Nat} {d : Drink}
    (h : oneOrNone s i = .ok (some d)) : s.filter (fun e => e.id = i) = [d] := by
  unfold oneOrNone at h
  rcases hf : s.filter (fun e => e.id = i) with _ | ⟨x, _ | ⟨y, t⟩⟩ <;>
    rw [hf] at h <;> simp_all

theorem insertDrink_ok {s s' : Store} {t : Option PyJson} {r : String} {d : Drink}
    (h : insertDrink s t r = .ok (s', d)) : s' = s ++ [d] := by
  unfold insertDrink at h
  rcases t with _ | j
  · simp at h
  · cases j <;> try simp at h
    split at h
    · simp at h
    · simp only [Except.ok.injEq, Prod.mk.injEq] at h
      rw [← h.1, h.2]

theorem map_if_update {α : Type} (f : Drink → α) (s : Store) (d2 : Drink)
    (hagree : ∀ e ∈ s, e.id = d2.id → f e = f d2) :
    (s.map fun e => if e.id = d2.id then d2 else e).map f = s.map f := by
  rw [List.map_map]
  apply List.map_congr_left
  intro e he
  by_cases h : e.id = d2.id
  · simp [Function.comp, h, (hagree e he h).symm]
  · simp [Function.comp, h]

theorem commitUpdate_ok {s : Store} {d2 : Drink}
    (h : ∀ e ∈ s, e.id = d2.id ∨ e.title ≠ d2.title) :
    commitUpdate s d2 = .ok (s.map fun e => if e.id = d2.id then d2 else e) := by
  have hno : ¬ (s.any fun e => e.id ≠ d2.id ∧ e.title = d2.title) = true := by
    simp only [List.any_eq_true, decide_eq_true_eq]
    rintro ⟨e, he, hne, hti⟩
    rcases h e he with h1 | h1
    · exact hne h1
    · exact h1 hti
  unfold commitUpdate
  rw [if_neg hno]

theorem orderById_perm (s : Store) : (orderById s).Perm s :=
  List.perm_insertionSort byId s

theorem mem_orderById {x : Drink} {s : Store} : x ∈ orderById s ↔ x ∈ s :=
  (orderById_perm s).mem_iff

theorem orderById_length (s : Store) : (orderById s).length = s.length :=
  (orderById_perm s).length_eq

theorem orderById_sorted (s : Store) : (orderById s).Pairwise byId :=
  List.sorted_insertionSort byId s

/-! ## Response-shape lemmas -/

theorem drinksBody_get_drinks (l : List PyJson) :
    (drinksBody l).get "drinks" = some (.arr l) := rfl

theorem errEnvelope_get_drinks (c : Nat) (m : String) :
    (errEnvelope c m).get "drinks" = none := rfl

theorem short_get_id (d : Drink) : (Drink.short d).get "id" = some (.num d.id) := rfl

theorem long_get_id (d : Drink) : (Drink.long d).get "id" = some (.num d.id) := rfl

theorem long_get_recipe (d : Drink) :
    (Drink.long d).get "recipe" = some ((loads d.recipe).getD .null) := rfl

theorem retrieve_drinks_of_ne_nil {s : Store} (h : s ≠ []) :
    retrieve_drinks s = ⟨200, drinksBody ((orderById s).map Drink.short)⟩ := by
  unfold retrieve_drinks
  rw [if_neg]
  rw [orderById_length]
  simpa using h

theorem get_drinks_detail_of_ne_nil {s : Store} (h : s ≠ []) :
    get_drinks_detail s = ⟨200, drinksBody ((orderById s).map Drink.long)⟩ := by
  unfold get_drinks_detail
  rw [if_neg]
  rw [orderById_length]
  simpa using h

/-! ## The claims -/

/-- C1: the claim says every error response — auth errors included — is
the envelope `\x7b success: false, error: code, message: msg \x7d`; but the
registered `AuthError` handler (`handle_auth_error`, `api.py` 273–280)
responds with `ex.error` itself, a bare `code`/`description` object with
no `success`, `error` or `message` member, contradicting the comment above
it ("error handler should conform to general task above").  Evaluated here
at a typical token-verifier failure. -/
theorem C1_auth_error_response_not_enveloped :
    handle_auth_error ⟨"invalid_header", "Unable to parse authentication token.", 401⟩
      = ⟨401, .obj [("code", .str "invalid_header"),
                    ("description", .str "Unable to parse authentication token.")]⟩ ∧
    (handle_auth_error
        ⟨"invalid_header", "Unable to parse authentication token.", 401⟩).body.get "success"
      = none ∧
    (handle_auth_error
        ⟨"invalid_header", "Unable to parse authentication token.", 401⟩).body.get "error"
      = none ∧
    (handle_auth_error
        ⟨"invalid_header", "Unable to parse authentication token.", 401⟩).body.get "message"
      = none :=
  ⟨rfl, rfl, rfl, rfl⟩

/-- C2: with zero stored drink records, `GET /drinks` and
`GET /drinks-detail` both answer with the 404 error envelope and never
with a 200 empty list. -/
theorem C2_empty_store_lists_404 (s : Store) (h : s.length = 0) :
    retrieve_drinks s = not_found ∧ get_drinks_detail s = not_found ∧
    (retrieve_drinks s).status = 404 ∧ (get_drinks_detail s).status = 404 ∧
    (retrieve_drinks s).status ≠ 200 ∧ (get_drinks_detail s).status ≠ 200 := by
  rw [List.length_eq_zero] at h
  subst h
  exact ⟨rfl, rfl, rfl, rfl, by decide, by decide⟩

/-- Witness for C2 at the empty store. -/
theorem C2_empty_store_lists_404_witness :
    ([] : Store).length = 0 ∧
    (retrieve_drinks [] = not_found ∧ get_drinks_detail [] = not_found ∧
     (retrieve_drinks []).status = 404 ∧ (get_drinks_detail []).status = 404 ∧
     (retrieve_drinks []).status ≠ 200 ∧ (get_drinks_detail []).status ≠ 200) :=
  ⟨rfl, C2_empty_store_lists_404 [] rfl⟩

/-- C5, counterexample: a `POST /drinks` carrying no readable JSON body
(`request.get_json()` yields nothing, so `body.get` raises before the
`try` block) does **not** produce the 422 the claim requires, but an
unhandled-error 500. -/
theorem C5_missing_body_counterexample :
    create_drink [] none = ([], internal_server_error) ∧
    (create_drink [] none).2.status = 500 ∧
    (create_drink [] none).2.status ≠ 422 :=
  ⟨rfl, rfl, by decide⟩

/-- C5, amended: once the JSON body has been read, any failure to create
the record yields 422 with the store unchanged; otherwise the response is
200 with `drinks` a one-element array holding the new record in long
form (a missing or unreadable body instead escapes the handler's `try`
and surfaces as a framework-level error, not 422). -/
theorem C5_created_or_422 (s : Store) (b : PyJson) :
    ((create_drink s (some b)).2 = unprocessable ∧ (create_drink s (some b)).1 = s) ∨
    (∃ d : Drink, create_drink s (some b) = (s ++ [d], ⟨200, drinksBody [d.long]⟩)) := by
  have hstep : create_drink s (some b)
      = match insertDrink s (b.get "title") (dumps ((b.get "recipe").getD .null)) with
        | .error _ => (s, unprocessable)
        | .ok (s', d) => (s', ⟨200, drinksBody [d.long]⟩) := rfl
  rcases h : insertDrink s (b.get "title") (dumps ((b.get "recipe").getD .null)) with _ | ⟨s', d⟩
  · left
    rw [hstep, h]
    exact ⟨rfl, rfl⟩
  · right
    refine ⟨d, ?_⟩
    rw [hstep, h]
    show (s', (⟨200, drinksBody [d.long]⟩ : Resp)) = (s ++ [d], ⟨200, drinksBody [d.long]⟩)
    rw [insertDrink_ok h]

/-- C6: a PATCH or DELETE whose id matches no stored record answers 404
and leaves the store untouched. -/
theorem C6_absent_id_404 (s : Store) (b : Option PatchBody) (i : Nat)
    (h : ∀ d ∈ s, d.id ≠ i) :
    modify_drink s b i = (s, not_found) ∧ delete_drink s i = (s, not_found) := by
  unfold modify_drink delete_drink
  rw [oneOrNone_absent h]
  exact ⟨rfl, rfl⟩

/-- Witness for C6: id 2 is absent from the seed store. -/
theorem C6_absent_id_404_witness :
    (∀ d ∈ seedStore, d.id ≠ 2) ∧
    (modify_drink seedStore none 2 = (seedStore, not_found) ∧
     delete_drink seedStore 2 = (seedStore, not_found)) :=
  ⟨by decide, C6_absent_id_404 seedStore none 2 (by decide)⟩

/-- C10: `db_drop_and_create_all()` runs at import time, before any route
is served; whatever records previous runs persisted, the resulting store
is the fixed fresh one — in particular it does not depend on the previous
contents at all. -/
theorem C10_startup_erases_previous (previous : Store) :
    db_drop_and_create_all previous = seedStore ∧
    ∀ other : Store, db_drop_and_create_all previous = db_drop_and_create_all other :=
  ⟨rfl, fun _ => rfl⟩

theorem commitUpdate_ok_inv {s s' : Store} {d2 : Drink}
    (h : commitUpdate s d2 = .ok s') :
    s' = s.map fun e => if e.id = d2.id then d2 else e := by
  unfold commitUpdate at h
  split at h
  · simp at h
  · simp only [Except.ok.injEq] at h
    exact h.symm

theorem modify_drink_found {s : Store} {i : Nat} {d : Drink}
    (t : Option String) (r : Option PyJson)
    (h : s.filter (fun e => e.id = i) = [d]) :
    modify_drink s (some ⟨t, r⟩) i =
      match commitUpdate s (patched d t r) with
      | .error _ => (s, unprocessable)
      | .ok s' => (s', ⟨200, drinksBody [(patched d t r).long]⟩) := by
  have hone := oneOrNone_single h
  rcases t with _ | tt <;> rcases r with _ | rr <;>
    simp only [modify_drink, hone, patched, titleAfter, recipeAfter] <;>
    split_ifs <;> simp_all

/-- C3, counterexample: a PATCH whose body *contains* `title` (with the
empty string) does not apply it — `if new_title:` tests truthiness, not
presence — so the stored title stays `"Water"` instead of becoming `""`,
against the claim that every present field is applied. -/
theorem C3_present_field_not_applied_counterexample :
    modify_drink [⟨1, "Water", "null"⟩] (some ⟨some "", none⟩) 1
      = ([⟨1, "Water", "null"⟩], ⟨200, drinksBody [Drink.long ⟨1, "Water", "null"⟩]⟩) ∧
    (∀ e ∈ (modify_drink [⟨1, "Water", "null"⟩] (some ⟨some "", none⟩) 1).1,
      e.title = "Water" ∧ e.title ≠ "") := by
  exact ⟨rfl, by decide⟩

/-- C3, amended: a PATCH on an existing id applies exactly the fields
that are present **with a truthy value** (a non-empty title, a truthy
recipe); absent or falsy fields are left unchanged; when the commit
succeeds the response is 200 with the updated record in long form. -/
theorem C3_truthy_fields_applied (s : Store) (i : Nat) (d : Drink)
    (t : Option String) (r : Option PyJson)
    (hone : s.filter (fun e => e.id = i) = [d])
    (huniq : ∀ e ∈ s, e.id = i ∨ e.title ≠ titleAfter d.title t) :
    modify_drink s (some ⟨t, r⟩) i
      = (s.map fun e => if e.id = i then patched d t r else e,
         ⟨200, drinksBody [(patched d t r).long]⟩) ∧
    (patched d t r).id = d.id ∧
    (patched d t r).title = titleAfter d.title t ∧
    (patched d t r).recipe = recipeAfter d.recipe r := by
  have hdi : d.id = i := (mem_of_filter_single hone).2
  have hcommit : commitUpdate s (patched d t r)
      = .ok (s.map fun e => if e.id = (patched d t r).id then patched d t r else e) := by
    apply commitUpdate_ok
    intro e he
    rcases huniq e he with h1 | h1
    · exact .inl (by rw [h1, patched, hdi])
    · exact .inr h1
  refine ⟨?_, rfl, rfl, rfl⟩
  rw [modify_drink_found t r hone, hcommit]
  have : (patched d t r).id = i := by rw [patched, hdi]
  rw [this]

/-- Witness for C3 (amended) at a one-row store and a title-only PATCH. -/
theorem C3_truthy_fields_applied_witness :
    ([⟨1, "Water", "null"⟩] : Store).filter (fun e => e.id = 1) = [⟨1, "Water", "null"⟩] ∧
    (∀ e ∈ ([⟨1, "Water", "null"⟩] : Store),
      e.id = 1 ∨ e.title ≠ titleAfter "Water" (some "Tea")) ∧
    (modify_drink [⟨1, "Water", "null"⟩] (some ⟨some "Tea", none⟩) 1
      = ([⟨1, "Water", "null"⟩].map fun e =>
           if e.id = 1 then patched ⟨1, "Water", "null"⟩ (some "Tea") none else e,
         ⟨200, drinksBody [(patched ⟨1, "Water", "null"⟩ (some "Tea") none).long]⟩) ∧
     (patched ⟨1, "Water", "null"⟩ (some "Tea") none).id = 1 ∧
     (patched ⟨1, "Water", "null"⟩ (some "Tea") none).title
       = titleAfter "Water" (some "Tea") ∧
     (patched ⟨1, "Water", "null"⟩ (some "Tea") none).recipe
       = recipeAfter "null" none) :=
  ⟨by decide, by decide,
   C3_truthy_fields_applied [⟨1, "Water", "null"⟩] 1 ⟨1, "Water", "null"⟩
     (some "Tea") none (by decide) (by decide)⟩

/-- C4: a PATCH whose body contains only `title` preserves every row's
`(id, recipe)` projection, and a PATCH whose body contains only `recipe`
preserves every row's `(id, title)` projection — whatever the id and
whether or not the request succeeds. -/
theorem C4_patch_frame (s : Store) (i : Nat) (t : String) (r : PyJson) :
    (modify_drink s (some ⟨some t, none⟩) i).1.map idRecipe = s.map idRecipe ∧
    (modify_drink s (some ⟨none, some r⟩) i).1.map idTitle = s.map idTitle := by
  constructor
  · rcases h1 : oneOrNone s i with _ | (_ | d)
    · simp only [modify_drink, h1]
    · simp only [modify_drink, h1]
    · have hf := oneOrNone_ok_some h1
      rw [modify_drink_found (some t) none hf]
      rcases h2 : commitUpdate s (patched d (some t) none) with _ | s'
      · rfl
      · have hs' := commitUpdate_ok_inv h2
        simp only [hs']
        apply map_if_update
        intro e he hei
        have hdi : d.id = i := (mem_of_filter_single hf).2
        have : e = d := eq_of_filter_single hf he (by simpa [patched, hdi] using hei)
        subst this
        rfl
  · rcases h1 : oneOrNone s i with _ | (_ | d)
    · simp only [modify_drink, h1]
    · simp only [modify_drink, h1]
    · have hf := oneOrNone_ok_some h1
      rw [modify_drink_found none (some r) hf]
      rcases h2 : commitUpdate s (patched d none (some r)) with _ | s'
      · rfl
      · have hs' := commitUpdate_ok_inv h2
        simp only [hs']
        apply map_if_update
        intro e he hei
        have hdi : d.id = i := (mem_of_filter_single hf).2
        have : e = d := eq_of_filter_single hf he (by simpa [patched, hdi] using hei)
        subst this
        rfl

/-- C7: deleting an existing id answers 200 with
`\x7b success: true, delete: id \x7d`, removes the row, and a subsequent
`GET /drinks` no longer lists that id. -/
theorem C7_delete_existing (s : Store) (i : Nat) (d : Drink)
    (h : s.filter (fun e => e.id = i) = [d]) :
    delete_drink s i
      = (deleteById s i, ⟨200, .obj [("success", .bool true), ("delete", .num i)]⟩) ∧
    (∀ e ∈ (delete_drink s i).1, e.id ≠ i) ∧
    ¬ listsId (retrieve_drinks (delete_drink s i).1) i := by
  have h1 := oneOrNone_single h
  have hdel : delete_drink s i
      = (deleteById s i, ⟨200, .obj [("success", .bool true), ("delete", .num i)]⟩) := by
    simp only [delete_drink, h1]
  have hmem : ∀ e ∈ deleteById s i, e.id ≠ i := by
    intro e he
    have h2 := (List.mem_filter.mp he).2
    simpa using h2
  refine ⟨hdel, by rw [hdel]; exact hmem, ?_⟩
  rw [hdel]
  by_cases hnil : deleteById s i = []
  · rw [hnil]
    intro hl
    exact hl
  · rw [retrieve_drinks_of_ne_nil hnil]
    intro hl
    have hl' : ∃ e ∈ (orderById (deleteById s i)).map Drink.short,
        e.get "id" = some (.num i) := hl
    obtain ⟨e, he, hid⟩ := hl'
    obtain ⟨x, hx, rfl⟩ := List.mem_map.mp he
    rw [short_get_id] at hid
    have hxi : x.id = i := by simpa using hid
    exact hmem x (mem_orderById.mp hx) hxi

/-- Witness for C7: deleting the seed row. -/
theorem C7_delete_existing_witness :
    seedStore.filter (fun e => e.id = 1) = [⟨1, "water",
      "[\x7b\"name\": \"water\", \"color\": \"blue\", \"parts\": 1\x7d]"⟩] ∧
    (delete_drink seedStore 1
      = (deleteById seedStore 1,
         ⟨200, .obj [("success", .bool true), ("delete", .num 1)]⟩) ∧
     (∀ e ∈ (delete_drink seedStore 1).1, e.id ≠ 1) ∧
     ¬ listsId (retrieve_drinks (delete_drink seedStore 1).1) 1) :=
  ⟨by decide,
   C7_delete_existing seedStore 1 ⟨1, "water",
     "[\x7b\"name\": \"water\", \"color\": \"blue\", \"parts\": 1\x7d]"⟩ (by decide)⟩

/-- C9: on a non-empty store both list endpoints answer 200 with the
rows ordered by id; the listing contains every stored record (it is a
permutation of the store) and is sorted by id ascending. -/
theorem C9_lists_sorted_complete (s : Store) (h : s ≠ []) :
    retrieve_drinks s = ⟨200, drinksBody ((orderById s).map Drink.short)⟩ ∧
    get_drinks_detail s = ⟨200, drinksBody ((orderById s).map Drink.long)⟩ ∧
    (∀ d ∈ s, d ∈ orderById s) ∧
    (orderById s).Perm s ∧
    (orderById s).Pairwise byId :=
  ⟨retrieve_drinks_of_ne_nil h, get_drinks_detail_of_ne_nil h,
   fun _ hd => mem_orderById.mpr hd, orderById_perm s, orderById_sorted s⟩

/-- C8: for a valid create request (string title not yet in the store,
recipe present), the create succeeds and the recipe round-trips: the new
record's long form — the one a subsequent `GET /drinks-detail` lists —
carries a `recipe` equal, as structured data, to the submitted one. -/
theorem C8_recipe_roundtrip (s : Store) (b : PyJson) (t : String) (rec : PyJson)
    (htitle : b.get "title" = some (.str t))
    (hrec : b.get "recipe" = some rec)
    (hfresh : ∀ d ∈ s, d.title ≠ t) :
    ∃ d : Drink,
      create_drink s (some b) = (s ++ [d], ⟨200, drinksBody [d.long]⟩) ∧
      d.long.get "recipe" = some rec ∧
      d.long.get "id" = some (.num d.id) ∧
      ∃ l, (get_drinks_detail (s ++ [d])).body.get "drinks" = some (.arr l) ∧
        d.long ∈ l := by
  have hno : ¬ (s.any fun d => d.title = t) = true := by
    simp only [List.any_eq_true, decide_eq_true_eq]
    rintro ⟨e, he, hti⟩
    exact hfresh e he hti
  have hins : insertDrink s (b.get "title") (dumps ((b.get "recipe").getD .null))
      = .ok (s ++ [⟨nextId s, t, dumps rec⟩], ⟨nextId s, t, dumps rec⟩) := by
    rw [htitle, hrec]
    show (if (s.any fun d => d.title = t) = true
          then (Except.error () : Except Unit (Store × Drink))
          else .ok (s ++ [⟨nextId s, t, dumps rec⟩], ⟨nextId s, t, dumps rec⟩))
        = .ok (s ++ [⟨nextId s, t, dumps rec⟩], ⟨nextId s, t, dumps rec⟩)
    rw [if_neg hno]
  have hstep : create_drink s (some b)
      = match insertDrink s (b.get "title") (dumps ((b.get "recipe").getD .null)) with
        | .error _ => (s, unprocessable)
        | .ok (s', d) => (s', ⟨200, drinksBody [d.long]⟩) := rfl
  refine ⟨⟨nextId s, t, dumps rec⟩, ?_, ?_, long_get_id _, ?_⟩
  · rw [hstep, hins]
  · rw [long_get_recipe]
    show some ((loads (dumps rec)).getD .null) = some rec
    rw [loads_dumps]
    rfl
  · have hne : s ++ [(⟨nextId s, t, dumps rec⟩ : Drink)] ≠ [] := by simp
    rw [get_drinks_detail_of_ne_nil hne]
    refine ⟨_, drinksBody_get_drinks _, ?_⟩
    exact List.mem_map_of_mem _ (mem_orderById.mpr (by simp))

/-- Witness for C8 at the spec's own example request. -/
theorem C8_recipe_roundtrip_witness :
    (PyJson.obj [("title", .str "Water"),
        ("recipe", .arr [.obj [("name", .str "water"), ("color", .str "blue"),
          ("parts", .num 1)]])]).get "title" = some (.str "Water") ∧
    (PyJson.obj [("title", .str "Water"),
        ("recipe", .arr [.obj [("name", .str "water"), ("color", .str "blue"),
          ("parts", .num 1)]])]).get "recipe"
      = some (.arr [.obj [("name", .str "water"), ("color", .str "blue"),
          ("parts", .num 1)]]) ∧
    (∀ d ∈ ([] : Store), d.title ≠ "Water") ∧
    (∃ d : Drink,
      create_drink [] (some (.obj [("title", .str "Water"),
          ("recipe", .arr [.obj [("name", .str "water"), ("color", .str "blue"),
            ("parts", .num 1)]])]))
        = ([] ++ [d], ⟨200, drinksBody [d.long]⟩) ∧
      d.long.get "recipe" = some (.arr [.obj [("name", .str "water"),
        ("color", .str "blue"), ("parts", .num 1)]]) ∧
      d.long.get "id" = some (.num d.id) ∧
      ∃ l, (get_drinks_detail ([] ++ [d])).body.get "drinks" = some (.arr l) ∧
        d.long ∈ l) :=
  ⟨rfl, rfl, by simp,
   C8_recipe_roundtrip [] _ "Water"
     (.arr [.obj [("name", .str "water"), ("color", .str "blue"), ("parts", .num 1)]])
     rfl rfl (by simp)⟩

/-- Witness for C9 at the seed store. -/
theorem C9_lists_sorted_complete_witness :
    seedStore ≠ [] ∧
    (retrieve_drinks seedStore
       = ⟨200, drinksBody ((orderById seedStore).map Drink.short)⟩ ∧
     get_drinks_detail seedStore
       = ⟨200, drinksBody ((orderById seedStore).map Drink.long)⟩ ∧
     (∀ d ∈ seedStore, d ∈ orderById seedStore) ∧
     (orderById seedStore).Perm seedStore ∧
     (orderById seedStore).Pairwise byId) :=
  ⟨by decide, C9_lists_sorted_complete seedStore (by decide)⟩

end CoffeeShop
